import Mathlib

/-!
Verification development for the AArch64 post-legalizer combiner
(`AArch64PostLegalizerCombiner.cpp`): a shallow embedding of the five
rewrite rules (pairwise-reduction extraction, multiply-by-constant
strength reduction, merge-to-zero-extend, any-extend-to-zero-extend,
128-bit zero-store splitting), their match predicates and apply phases,
together with proofs about them.

Machine integers are modelled as natural numbers with explicit reduction
modulo `2 ^ W`; `APInt` values of width `W` are represented by their
unsigned value `v < 2 ^ W`, with the signed interpretation `v - 2 ^ W`
for `v ≥ 2 ^ (W-1)`.
-/

/-- Virtual registers are identified by numbers. -/
abbrev Reg := Nat

/-- The generic opcodes that appear in the combiner's rules. -/
inductive Opcode where
  | G_ADD
  | G_SUB
  | G_MUL
  | G_PTR_ADD
  | G_SHL
  | G_SEXT
  | G_SEXT_INREG
  | G_ZEXT
  | G_ANYEXT
  | G_FADD
  | G_EXTRACT_VECTOR_ELT
  | G_SHUFFLE_VECTOR
  | G_MERGE_VALUES
  | G_CONSTANT
  | G_BUILD_VECTOR
  | G_STORE
  | G_ICMP
  | G_FCMP
  | G_IMPLICIT_DEF
deriving DecidableEq

/-- Low-level types (LLT): scalars, fixed vectors and pointers. -/
inductive LLTy where
  | scalar (bits : Nat)
  | vector (elems : Nat) (bits : Nat)
  | pointer (addrSpace : Nat) (bits : Nat)
deriving DecidableEq

def LLTy.isVector : LLTy → Bool
  | .vector _ _ => true
  | _ => false

def LLTy.isScalar : LLTy → Bool
  | .scalar _ => true
  | _ => false

def LLTy.sizeInBits : LLTy → Nat
  | .scalar b => b
  | .vector n b => n * b
  | .pointer _ b => b

/-- A machine instruction: an identity (standing in for the instruction's
address, so that pointer comparisons of `MachineInstr *` can be expressed),
an opcode, the operand registers (destination first), and opcode-specific
auxiliary data (a shuffle mask, a constant payload). -/
structure GMI where
  ident : Nat
  opcode : Opcode
  operands : List Reg
  shuffleMask : List Int := []
  cstVal : Option Int := none
deriving DecidableEq

/-- The slice of `MachineRegisterInfo` the rules consult: the defining
instruction of each register, each register's type, and whether a register
has exactly one non-debug use. -/
structure MRIModel where
  defs : Reg → GMI
  types : Reg → LLTy
  hasOneNonDBGUse : Reg → Bool

/-- Modelled from the spec: `getIConstantVRegValWithLookThrough` (LLVM
GlobalISel utility code, not under src/) returns the constant integer a
register holds, when its definition is a `G_CONSTANT`; the spec describes
its uses as "confirm the extraction index is constant zero" and "the second
operand is a compile-time integer constant". Look-through of copies is
omitted: registers are defined directly by their producers here. -/
def getIConstantVRegValWithLookThrough (r : Reg) (mri : MRIModel) : Option Int :=
  let d := mri.defs r
  if d.opcode = .G_CONSTANT then d.cstVal else none

/-- Modelled from the spec: `getOpcodeDef` (LLVM GlobalISel utility code,
not under src/) returns the defining instruction of a register when that
instruction has the requested opcode. -/
def getOpcodeDef (opc : Opcode) (r : Reg) (mri : MRIModel) : Option GMI :=
  let d := mri.defs r
  if d.opcode = opc then some d else none

/-- Modelled from the spec: `isConstantOrConstantSplatVector` (LLVM
GlobalISel utility code, not under src/) returns the value of a scalar
constant, or of a build-vector all of whose elements are the same
constant ("a constant (or uniformly-zero splat)" in the spec's words). -/
def isConstantOrConstantSplatVector (mi : GMI) (mri : MRIModel) : Option Int :=
  if mi.opcode = .G_CONSTANT then mi.cstVal
  else if mi.opcode = .G_BUILD_VECTOR then
    match (mi.operands.drop 1).map (fun r => getIConstantVRegValWithLookThrough r mri) with
    | [] => none
    | c :: cs => if cs.all (fun x => x = c) then c else none
  else none

/-! ## Rule: pairwise-reduction extraction -/

/-- Embedding of `matchExtractVecEltPairwiseAdd`: matches
`(g_extract_vector_elt (g_fadd v (g_shuffle_vector v undef <1,...>)) 0)`
and records the opcode, the scalar destination type and the shared
vector register. Follows the source line by line: constant-zero index,
`G_FADD` source, destination size 16/32/64, shuffle operand discovery
(second `fadd` operand first, then the first), mask slot 0 equal to 1,
and identity of `Other` with the shuffle's first input's definition. -/
def matchExtractVecEltPairwiseAdd (mi : GMI) (mri : MRIModel) :
    Option (Opcode × LLTy × Reg) :=
  let src1 := mi.operands.getD 1 0
  let src2 := mi.operands.getD 2 0
  let dstTy := mri.types (mi.operands.getD 0 0)
  match getIConstantVRegValWithLookThrough src2 mri with
  | none => none
  | some cst =>
    if cst ≠ 0 then none
    else
      match getOpcodeDef .G_FADD src1 mri with
      | none => none
      | some faddMI =>
        let dstSize := dstTy.sizeInBits
        if dstSize ≠ 16 ∧ dstSize ≠ 32 ∧ dstSize ≠ 64 then none
        else
          let src1Op1 := faddMI.operands.getD 1 0
          let src1Op2 := faddMI.operands.getD 2 0
          let shuffleOther :=
            match getOpcodeDef .G_SHUFFLE_VECTOR src1Op2 mri with
            | some sh => (some sh, mri.defs src1Op1)
            | none => (getOpcodeDef .G_SHUFFLE_VECTOR src1Op1 mri, mri.defs src1Op2)
          match shuffleOther.1 with
          | some shuffle =>
            if shuffle.shuffleMask.getD 0 0 = 1 ∧
                shuffleOther.2.ident = (mri.defs (shuffle.operands.getD 1 0)).ident then
              some (.G_FADD, dstTy, shuffleOther.2.operands.getD 0 0)
            else none
          | none => none

/-- Embedding of `applyExtractVecEltPairwiseAdd`: emits two constants 0
and 1, two single-element extractions of the shared vector, and the
scalar add, writing to the original destination register; the second
component records that the original instruction is erased. Fresh
registers/identities are drawn from `freshBase`. -/
def applyExtractVecEltPairwiseAdd (mi : GMI) (info : Opcode × LLTy × Reg)
    (freshBase : Nat) : List GMI × Bool :=
  let src := info.2.2
  ([⟨freshBase, .G_CONSTANT, [freshBase], [], some 0⟩,
    ⟨freshBase + 1, .G_EXTRACT_VECTOR_ELT, [freshBase + 1, src, freshBase], [], none⟩,
    ⟨freshBase + 2, .G_CONSTANT, [freshBase + 2], [], some 1⟩,
    ⟨freshBase + 3, .G_EXTRACT_VECTOR_ELT, [freshBase + 3, src, freshBase + 2], [], none⟩,
    ⟨freshBase + 4, info.1, [mi.operands.getD 0 0, freshBase + 1, freshBase + 3], [], none⟩],
   true)

/-! Value semantics used to state the pairwise rule's equivalence: vectors
are element maps `Nat → α`, a shuffle with an undef second input reads
lane `mask[i]` of its first input (an out-of-range/negative mask entry
yields the undef lane), a vector float-add acts elementwise, and
extraction reads one lane. The scalar type and `fadd` are abstract. -/

def shuffleVec {α : Type} (v undef : Nat → α) (mask : List Int) : Nat → α :=
  fun i =>
    match mask.getD i (-1) with
    | Int.ofNat k => v k
    | Int.negSucc _ => undef i

def vecBinop {α : Type} (f : α → α → α) (a b : Nat → α) : Nat → α :=
  fun i => f (a i) (b i)

def extractElt {α : Type} (a : Nat → α) (i : Nat) : α := a i

/-! ## Rule: multiply-by-constant strength reduction -/

/-- Trailing-zero count of `v` as a `fuel`-bit value (`APInt::countr_zero`):
`0` for odd `v`, and `fuel` for `v = 0`. -/
def ctzAux : Nat → Nat → Nat
  | 0, _ => 0
  | fuel + 1, v => if v % 2 = 1 then 0 else ctzAux fuel (v / 2) + 1

/-- `APInt::countr_zero` for a `W`-bit value. -/
def countrZero (W v : Nat) : Nat := ctzAux W v

/-- Fuel-driven base-2 logarithm: `log2Aux fuel n` halves `n` until it
drops below 2, so with `fuel ≥ n` it computes the index of the highest
set bit of `n` (`APInt::logBase2`). -/
def log2Aux : Nat → Nat → Nat
  | 0, _ => 0
  | fuel + 1, n => if n < 2 then 0 else log2Aux fuel (n / 2) + 1

/-- Index of the highest set bit (`APInt::logBase2`), as a structurally
recursive function. -/
def natLog2 (n : Nat) : Nat := log2Aux n n

/-- `APInt::isPowerOf2`: the (unsigned) value is a power of two greater
than zero. -/
def isPow2 (n : Nat) : Bool := decide (0 < n ∧ 2 ^ natLog2 n = n)

/-- `W`-bit wrapping increment (`APInt` addition of 1). -/
def apAdd1 (W n : Nat) : Nat := (n + 1) % 2 ^ W

/-- `W`-bit wrapping decrement (`APInt` subtraction of 1). -/
def apSub1 (W n : Nat) : Nat := (n + (2 ^ W - 1)) % 2 ^ W

/-- `W`-bit wrapping negation (`APInt::operator-`). -/
def apNeg (W n : Nat) : Nat := (2 ^ W - n % 2 ^ W) % 2 ^ W

/-- `W`-bit arithmetic shift right (`APInt::ashr`): plain division for
non-negative values, and the bitwise-complement formulation
`~((~n) >> t)` for negative ones. -/
def apAshr (W n t : Nat) : Nat :=
  if n < 2 ^ (W - 1) then n / 2 ^ t
  else (2 ^ W - 1) - ((2 ^ W - 1 - n) / 2 ^ t)

/-- Embedding of `isSignExtended`: the register's definition is a
`G_SEXT` or `G_SEXT_INREG` (here applied to that definition's opcode). -/
def isSignExtended (opc : Opcode) : Bool :=
  opc = .G_SEXT ∨ opc = .G_SEXT_INREG

/-- Embedding of `isZeroExtended`: the register's definition is a `G_ZEXT`. -/
def isZeroExtended (opc : Opcode) : Bool := opc = .G_ZEXT

/-- The `MatchInfo` captured by the multiply rule's closure: the shift
amount, the add-vs-sub opcode, whether the shifted value is the left
operand of the add/sub, whether the result is negated at the end, and
the trailing-zero count of the constant. -/
structure MulPlan where
  shiftAmt : Nat
  addSubOpc : Opcode
  shiftValUseIsLHS : Bool
  negateResult : Bool
  trailingZeroes : Nat
deriving DecidableEq

/-- The branch analysis of `matchAArch64MulConstCombine` (lines 180-219 of
the source): `v` is the unsigned `W`-bit value of `ConstValue` (the
multiply's constant after sign-extension to the operand width).
`ShiftedConstValue = ConstValue.ashr(TrailingZeroes)`; for non-negative
constants the code tests `ShiftedConstValue - 1` and then
`ConstValue + 1` for power-of-two-ness, for negative ones
`-ConstValue + 1` and then `-ConstValue - 1`, all in wrapping `W`-bit
arithmetic. The final mutual-exclusion check of lines 221-222
(`NegateResult && TrailingZeroes`) rejects the plan. -/
def matchMulBranches (W v : Nat) : Option MulPlan :=
  let trailingZeroes := countrZero W v
  let shiftedConstValue := apAshr W v trailingZeroes
  let plan :=
    if v < 2 ^ (W - 1) then
      let scvMinus1 := apSub1 W shiftedConstValue
      let cvPlus1 := apAdd1 W v
      if isPow2 scvMinus1 then
        some (MulPlan.mk (natLog2 scvMinus1) .G_ADD true false trailingZeroes)
      else if isPow2 cvPlus1 then
        some (MulPlan.mk (natLog2 cvPlus1) .G_SUB true false trailingZeroes)
      else none
    else
      let cvNegPlus1 := apAdd1 W (apNeg W v)
      let cvNegMinus1 := apSub1 W (apNeg W v)
      if isPow2 cvNegPlus1 then
        some (MulPlan.mk (natLog2 cvNegPlus1) .G_SUB false false trailingZeroes)
      else if isPow2 cvNegMinus1 then
        some (MulPlan.mk (natLog2 cvNegMinus1) .G_ADD true true trailingZeroes)
      else none
  match plan with
  | none => none
  | some p => if p.negateResult = true ∧ p.trailingZeroes ≠ 0 then none else some p

/-- Embedding of `matchAArch64MulConstCombine`. `v` is the unsigned
`W`-bit value of the constant. The use-based bail-outs of lines 163-179
are parametrised by the facts they consult: whether the non-constant
operand has exactly one non-debug use and its defining opcode, and
whether the multiply's result has exactly one non-debug use and that
user's opcode. Both bail-outs sit inside `if (TrailingZeroes)` in the
source. -/
def matchAArch64MulConstCombine (W v : Nat)
    (lhsHasOneNonDBGUse : Bool) (lhsDefOpc : Opcode)
    (dstHasOneNonDBGUse : Bool) (dstUseOpc : Opcode) : Option MulPlan :=
  let trailingZeroes := countrZero W v
  if trailingZeroes ≠ 0 ∧
      ((lhsHasOneNonDBGUse = true ∧
        (isSignExtended lhsDefOpc = true ∨ isZeroExtended lhsDefOpc = true)) ∨
       (dstHasOneNonDBGUse = true ∧
        (dstUseOpc = .G_ADD ∨ dstUseOpc = .G_PTR_ADD ∨ dstUseOpc = .G_SUB))) then
    none
  else matchMulBranches W v

/-- Value of the instruction sequence built by the multiply rule's
`ApplyFn` closure (lines 224-244) on a `W`-bit input `x`: the shift,
the add or sub with the operand order recorded in the plan, then the
optional final negation or trailing-zero shift. `G_SHL` is modelled
with modular (wrapping) shift semantics. -/
def evalApplyFn (W : Nat) (p : MulPlan) (x : Nat) : Nat :=
  let shiftedVal := x * 2 ^ p.shiftAmt % 2 ^ W
  let addSubLHS := if p.shiftValUseIsLHS then shiftedVal else x
  let addSubRHS := if p.shiftValUseIsLHS then x else shiftedVal
  let res :=
    if p.addSubOpc = .G_SUB then
      (addSubLHS + (2 ^ W - addSubRHS % 2 ^ W)) % 2 ^ W
    else (addSubLHS + addSubRHS) % 2 ^ W
  if p.negateResult then (2 ^ W - res % 2 ^ W) % 2 ^ W
  else if p.trailingZeroes ≠ 0 then res * 2 ^ p.trailingZeroes % 2 ^ W
  else res

/-! ## Rule: merge-to-zero-extend -/

/-- Embedding of `matchFoldMergeToZext`: a `G_MERGE_VALUES` whose operands
are the destination followed by the sources, with exactly two sources,
source type exactly `s32`, and second source a constant zero. -/
def matchFoldMergeToZext (mi : GMI) (mri : MRIModel) : Bool :=
  let srcTy := mri.types (mi.operands.getD 1 0)
  if srcTy ≠ LLTy.scalar 32 ∨ mi.operands.length - 1 ≠ 2 then false
  else decide (getIConstantVRegValWithLookThrough (mi.operands.getD 2 0) mri = some 0)

/-- Embedding of `applyFoldMergeToZext`: in-place mutation of the
instruction description - the opcode becomes `G_ZEXT` and operand 2 (the
zero source) is removed; destination and first source are untouched. -/
def applyFoldMergeToZext (mi : GMI) : GMI :=
  { mi with opcode := .G_ZEXT, operands := mi.operands.eraseIdx 2 }

/-- Value of `%d(s64) = G_MERGE_VALUES %a(s32), %b(s32)`: the first
source occupies the low 32 bits, the second the high 32 bits. -/
def mergeValues2 (a b : Nat) : Nat := a % 2 ^ 32 + b % 2 ^ 32 * 2 ^ 32

/-- Value of a zero-extension from `srcW` bits (the destination width
only constrains the bound of the result). -/
def zextVal (srcW : Nat) (c : Nat) : Nat := c % 2 ^ srcW

/-! ## Rule: any-extend to zero-extend -/

/-- Embedding of `matchMutateAnyExtToZExt`: the `G_ANYEXT` destination is
scalar and the source is produced by an integer or float compare. -/
def matchMutateAnyExtToZExt (mi : GMI) (mri : MRIModel) : Bool :=
  (mri.types (mi.operands.getD 0 0)).isScalar &&
    (decide ((mri.defs (mi.operands.getD 1 0)).opcode = .G_ICMP) ||
     decide ((mri.defs (mi.operands.getD 1 0)).opcode = .G_FCMP))

/-- Embedding of `applyMutateAnyExtToZExt`: in-place opcode mutation to
`G_ZEXT`; operands are untouched. -/
def applyMutateAnyExtToZExt (mi : GMI) : GMI :=
  { mi with opcode := .G_ZEXT }

/-- Result set of `G_ANYEXT` from `srcW` to `dstW` bits on input `c`: any
`dstW`-bit value whose low `srcW` bits agree with `c` (the upper bits are
unspecified). `G_ZEXT` refines this by picking zero upper bits. -/
def anyextResult (srcW dstW : Nat) (c y : Nat) : Prop :=
  y < 2 ^ dstW ∧ y % 2 ^ srcW = c % 2 ^ srcW

/-! ## Rule: split 128-bit zero store -/

/-- The slice of a `GStore` the rule consults: simplicity (non-atomic,
non-volatile), the stored value register, the address register, the
memory access size, and the access's byte offset recorded in its memory
operand. -/
structure GStoreInfo where
  isSimple : Bool
  valueReg : Reg
  ptrReg : Reg
  memSizeInBits : Nat
  mmoOffset : Int
deriving DecidableEq

/-- Embedding of `matchSplitStoreZero128`, following the source's early
returns: simple store, 128-bit vector value, non-truncating access,
exactly one non-debug use of the value, and a constant / constant-splat
value equal to zero. -/
def matchSplitStoreZero128 (store : GStoreInfo) (mri : MRIModel) : Bool :=
  if store.isSimple = false then false
  else
    let valTy := mri.types store.valueReg
    if valTy.isVector = false ∨ valTy.sizeInBits ≠ 128 then false
    else if valTy.sizeInBits ≠ store.memSizeInBits then false
    else if mri.hasOneNonDBGUse store.valueReg = false then false
    else
      match isConstantOrConstantSplatVector (mri.defs store.valueReg) mri with
      | some c => decide (c = 0)
      | none => false

/-- One store emitted by an apply phase: the stored constant, its width,
the address (base register plus byte displacement built with
`G_PTR_ADD`), and the derived memory operand (byte offset and width). -/
structure EmittedStore where
  val : Int
  valBits : Nat
  addrBase : Reg
  addrDisp : Nat
  mmoOffset : Int
  mmoSizeBits : Nat
deriving DecidableEq

/-- Embedding of `applySplitStoreZero128`: two 64-bit zero stores, one at
the original address and one 8 bytes above it, each with a memory operand
derived from the original one by offsetting 0 resp. 8 bytes and
narrowing to 64 bits; the flag records that the original store is
erased. -/
def applySplitStoreZero128 (store : GStoreInfo) : List EmittedStore × Bool :=
  ([⟨0, 64, store.ptrReg, 0, store.mmoOffset + 0, 64⟩,
    ⟨0, 64, store.ptrReg, 8, store.mmoOffset + 8, 64⟩],
   true)

/-- Byte-addressed memory semantics of storing the `nbytes`-byte
little-endian value `val` at `addr`. -/
def storeVal (m : Nat → Nat) (addr nbytes val : Nat) : Nat → Nat :=
  fun a => if addr ≤ a ∧ a < addr + nbytes then val / 256 ^ (a - addr) % 256 else m a

/-! ## Rule configuration (setup of the combiner pass) -/

/-- Modelled from the spec: the generated
`AArch64PostLegalizerCombinerImplRuleConfig::parseCommandLineOption`
(from `AArch64GenPostLegalizeGICombiner.inc`, not under src/) succeeds
exactly when every rule name in the enable/disable configuration is a
registered rule name. -/
def parseCommandLineOption (registered config : List String) : Bool :=
  config.all fun n => registered.contains n

/-- The message of the fatal error raised by the
`AArch64PostLegalizerCombinerInfo` constructor on a bad configuration. -/
def invalidRuleError : String :=
  "Invalid rule identifier"

/-- Embedding of the `AArch64PostLegalizerCombinerInfo` constructor: if
`parseCommandLineOption` fails, `report_fatal_error` is raised with
`invalidRuleError`; otherwise setup succeeds. -/
def initCombinerInfo (registered config : List String) : Except String Unit :=
  if parseCommandLineOption registered config then Except.ok ()
  else Except.error invalidRuleError

/-- The pass over one function: `combine` (per-instruction processing) is
reached only after the combiner info was constructed successfully, so a
configuration error aborts before any instruction is touched. The
per-instruction work itself is abstracted as returning the processed
list. -/
def runCombinerPass (registered config : List String) (instrs : List GMI) :
    Except String (List GMI) :=
  match initCombinerInfo registered config with
  | Except.error e => Except.error e
  | Except.ok _ => Except.ok instrs

/-! ## Concrete instruction graphs used as witnesses -/

/-- A pairwise-fadd-extraction graph: register 0 is defined by
`G_EXTRACT_VECTOR_ELT %1, %2`, register 1 by `G_FADD %3, %4`, register 2
by `G_CONSTANT 0`, register 3 by an opaque vector producer, register 4 by
`G_SHUFFLE_VECTOR %3, %5` with mask `<1, 0>`. -/
def exDefs (r : Reg) : GMI :=
  match r with
  | 0 => ⟨0, .G_EXTRACT_VECTOR_ELT, [0, 1, 2], [], none⟩
  | 1 => ⟨1, .G_FADD, [1, 3, 4], [], none⟩
  | 2 => ⟨2, .G_CONSTANT, [2], [], some 0⟩
  | 3 => ⟨3, .G_IMPLICIT_DEF, [3], [], none⟩
  | 4 => ⟨4, .G_SHUFFLE_VECTOR, [4, 3, 5], [1, 0], none⟩
  | _ => ⟨5, .G_IMPLICIT_DEF, [5], [], none⟩

/-- Types for `exDefs` with an 8-bit extraction destination. -/
def exTypes8 (r : Reg) : LLTy :=
  match r with
  | 0 => .scalar 8
  | 2 => .scalar 64
  | _ => .vector 4 8

/-- Types for `exDefs` with a 32-bit extraction destination. -/
def exTypes32 (r : Reg) : LLTy :=
  match r with
  | 0 => .scalar 32
  | 2 => .scalar 64
  | _ => .vector 4 32

def exMRI8 : MRIModel := ⟨exDefs, exTypes8, fun _ => true⟩

def exMRI32 : MRIModel := ⟨exDefs, exTypes32, fun _ => true⟩

/-- A 128-bit zero-splat store graph: register 0 is a `G_BUILD_VECTOR` of
two copies of register 1, the constant 0; register 2 is the pointer. -/
def exStoreDefs (r : Reg) : GMI :=
  match r with
  | 0 => ⟨10, .G_BUILD_VECTOR, [0, 1, 1], [], none⟩
  | 1 => ⟨11, .G_CONSTANT, [1], [], some 0⟩
  | _ => ⟨12, .G_IMPLICIT_DEF, [2], [], none⟩

/-- Like `exStoreDefs` but the splat element is the constant 5. -/
def exStoreDefsNZ (r : Reg) : GMI :=
  match r with
  | 0 => ⟨10, .G_BUILD_VECTOR, [0, 1, 1], [], none⟩
  | 1 => ⟨11, .G_CONSTANT, [1], [], some 5⟩
  | _ => ⟨12, .G_IMPLICIT_DEF, [2], [], none⟩

def exStoreTypes (r : Reg) : LLTy :=
  if r = 0 then .vector 2 64 else if r = 1 then .scalar 64 else .pointer 0 64

def exStoreMRI : MRIModel := ⟨exStoreDefs, exStoreTypes, fun _ => true⟩

def exStoreMRINZ : MRIModel := ⟨exStoreDefsNZ, exStoreTypes, fun _ => true⟩

/-- Like `exStoreMRI` but the stored value has more than one use. -/
def exStoreMRIMulti : MRIModel := ⟨exStoreDefs, exStoreTypes, fun r => decide (r ≠ 0)⟩

def exStore : GStoreInfo := ⟨true, 0, 2, 128, 0⟩

/-- A `G_MERGE_VALUES %10:s64 = %11:s32, %12:s32` graph whose second
source is the constant 0. -/
def exMergeDefs (r : Reg) : GMI :=
  match r with
  | 10 => ⟨20, .G_MERGE_VALUES, [10, 11, 12], [], none⟩
  | 12 => ⟨22, .G_CONSTANT, [12], [], some 0⟩
  | _ => ⟨21, .G_IMPLICIT_DEF, [11], [], none⟩

def exMergeTypes (r : Reg) : LLTy := if r = 10 then .scalar 64 else .scalar 32

def exMergeMRI : MRIModel := ⟨exMergeDefs, exMergeTypes, fun _ => true⟩

/-! ## Arithmetic helper lemmas -/

theorem ctzAux_dvd (fuel : Nat) : ∀ v : Nat, 2 ^ ctzAux fuel v ∣ v := by
  induction fuel with
  | zero => intro v; simp [ctzAux]
  | succ f ih =>
    intro v
    unfold ctzAux
    by_cases h : v % 2 = 1
    · simp [h]
    · set k := ctzAux f (v / 2) with hk
      obtain ⟨c, hc⟩ := ih (v / 2)
      refine ⟨c, ?_⟩
      simp only [h, if_false]
      have hv2 : v = 2 * (2 ^ k * c) := by rw [← hc]; omega
      rw [hv2, pow_succ']
      ring

theorem ctzAux_zero (fuel : Nat) : ctzAux fuel 0 = fuel := by
  induction fuel with
  | zero => rfl
  | succ f ih => simp [ctzAux, ih]

theorem ctzAux_of_odd (fuel v : Nat) (hf : 0 < fuel) (h : v % 2 = 1) :
    ctzAux fuel v = 0 := by
  cases fuel with
  | zero => omega
  | succ f => simp [ctzAux, h]

theorem isPow2_spec {n : Nat} (h : isPow2 n = true) :
    0 < n ∧ 2 ^ natLog2 n = n := by
  simpa [isPow2] using h

theorem apSub1_of_pos {W n : Nat} (h1 : 1 ≤ n) (h2 : n < 2 ^ W) :
    apSub1 W n = n - 1 := by
  unfold apSub1
  have hEq : n + (2 ^ W - 1) = (n - 1) + 2 ^ W := by omega
  rw [hEq, Nat.add_mod_right, Nat.mod_eq_of_lt (by omega)]

theorem apAdd1_of_lt {W n : Nat} (h : n + 1 < 2 ^ W) : apAdd1 W n = n + 1 := by
  unfold apAdd1
  exact Nat.mod_eq_of_lt h

theorem natEq_of_zmodCast {M a b : Nat} (hM : 0 < M) (ha : a < M) (hb : b < M)
    (h : (a : ZMod M) = (b : ZMod M)) : a = b := by
  haveI : NeZero M := ⟨by omega⟩
  have h2 := congrArg ZMod.val h
  rwa [ZMod.val_cast_of_lt ha, ZMod.val_cast_of_lt hb] at h2

theorem countrZero_zero (W : Nat) : countrZero W 0 = W := ctzAux_zero W

theorem countrZero_odd (W v : Nat) (hW : 0 < W) (h : v % 2 = 1) :
    countrZero W v = 0 := ctzAux_of_odd W v hW h

theorem matchMulBranches_eval (W v x : Nat) (hW : 0 < W) (hv : v < 2 ^ W)
    (hx : x < 2 ^ W) (p : MulPlan) (h : matchMulBranches W v = some p) :
    evalApplyFn W p x = x * v % 2 ^ W := by
  have hM : 0 < 2 ^ W := Nat.pos_pow_of_pos W (by norm_num)
  have hMsplit : 2 ^ W = 2 * 2 ^ (W - 1) := by
    conv_lhs => rw [show W = W - 1 + 1 by omega, pow_succ']
  have hM1 : 1 ≤ 2 ^ (W - 1) := Nat.one_le_pow _ 2 (by norm_num)
  have hM0 : (2 : ZMod (2 ^ W)) ^ W = 0 := by
    have hz := ZMod.natCast_self (2 ^ W)
    push_cast at hz
    exact hz
  have htdvd : 2 ^ countrZero W v ∣ v := ctzAux_dvd W v
  simp only [matchMulBranches] at h
  by_cases hsign : v < 2 ^ (W - 1)
  · -- ConstValue.isNonNegative()
    rw [if_pos hsign] at h
    have hashr : apAshr W v (countrZero W v) = v / 2 ^ countrZero W v := by
      unfold apAshr
      rw [if_pos hsign]
    rw [hashr] at h
    by_cases hp1 : isPow2 (apSub1 W (v / 2 ^ countrZero W v)) = true
    · -- SCVMinus1.isPowerOf2(): shift + add
      rw [if_pos hp1] at h
      simp at h
      subst h
      by_cases hv0 : v = 0
      · subst hv0
        have hct : countrZero W 0 = W := countrZero_zero W
        simp [evalApplyFn, hct, show W ≠ 0 by omega, Nat.mul_mod_left]
      · have hc1 : 1 ≤ v / 2 ^ countrZero W v :=
          (Nat.one_le_div_iff (Nat.pos_pow_of_pos _ (by norm_num))).mpr
            (Nat.le_of_dvd (by omega) htdvd)
        have hclt : v / 2 ^ countrZero W v < 2 ^ W :=
          lt_of_le_of_lt (Nat.div_le_self v _) hv
        rw [apSub1_of_pos hc1 hclt] at hp1 ⊢
        obtain ⟨hpos1, hlog1⟩ := isPow2_spec hp1
        have hc' : v / 2 ^ countrZero W v = 2 ^ natLog2 (v / 2 ^ countrZero W v - 1) + 1 := by
          omega
        have hveq : v = 2 ^ countrZero W v * (2 ^ natLog2 (v / 2 ^ countrZero W v - 1) + 1) := by
          rw [← hc']
          exact (Nat.mul_div_cancel' htdvd).symm
        have key : ((x * 2 ^ natLog2 (v / 2 ^ countrZero W v - 1) % 2 ^ W + x) % 2 ^ W)
            * 2 ^ countrZero W v % 2 ^ W = x * v % 2 ^ W := by
          apply natEq_of_zmodCast hM (Nat.mod_lt _ hM) (Nat.mod_lt _ hM)
          push_cast [ZMod.natCast_mod]
          conv_rhs => rw [hveq]
          push_cast
          ring
        by_cases ht0 : countrZero W v = 0
        · simp only [evalApplyFn, ht0, ne_eq, not_true_eq_false, if_false, ite_false,
            ite_true, Bool.false_eq_true]
          rw [← key, ht0, pow_zero, mul_one, Nat.mod_mod_of_dvd _ dvd_rfl]
          simp [evalApplyFn]
        · simp only [evalApplyFn]
          simp only [ht0, ne_eq, not_false_eq_true, if_true, ite_true, ite_false]
          simpa using key
    · rw [if_neg hp1] at h
      by_cases hp2 : isPow2 (apAdd1 W v) = true
      · -- CVPlus1.isPowerOf2(): shift + sub
        rw [if_pos hp2] at h
        simp at h
        subst h
        have hvlt : v + 1 < 2 ^ W := by omega
        rw [apAdd1_of_lt hvlt] at hp2 ⊢
        obtain ⟨_, hlog2⟩ := isPow2_spec hp2
        by_cases hv0 : v = 0
        · subst hv0
          have hct : countrZero W 0 = W := countrZero_zero W
          have hs0 : natLog2 (0 + 1) = 0 := rfl
          simp only [evalApplyFn, hct, hs0, pow_zero, mul_one]
          simp [Nat.mod_eq_of_lt hx, show x + (2 ^ W - x) = 2 ^ W by omega,
            show W ≠ 0 by omega, Nat.mul_mod_left]
        · have hs1 : 1 ≤ natLog2 (v + 1) := by
            by_contra hc
            have : natLog2 (v + 1) = 0 := by omega
            rw [this] at hlog2
            omega
          have h2s : 2 ^ natLog2 (v + 1) = 2 * 2 ^ (natLog2 (v + 1) - 1) := by
            conv_lhs => rw [show natLog2 (v + 1) = natLog2 (v + 1) - 1 + 1 by omega, pow_succ']
          have hodd : v % 2 = 1 := by omega
          have ht0 : countrZero W v = 0 := countrZero_odd W v hW hodd
          simp only [evalApplyFn, ht0, ne_eq, not_true_eq_false, if_false, ite_true, ite_false]
          set s := natLog2 (v + 1) with hsdef
          rw [show v = 2 ^ s - 1 by omega]
          apply natEq_of_zmodCast hM (Nat.mod_lt _ hM) (Nat.mod_lt _ hM)
          push_cast [ZMod.natCast_mod, Nat.cast_sub (le_of_lt (Nat.mod_lt x hM)),
            Nat.cast_sub (show 1 ≤ 2 ^ s by omega)]
          rw [hM0]
          ring
      · rw [if_neg hp2] at h
        simp at h
  · -- negative constant
    rw [if_neg hsign] at h
    have hvge : 2 ^ (W - 1) ≤ v := by omega
    have hvpos : 0 < v := by omega
    have hneg : apNeg W v = 2 ^ W - v := by
      unfold apNeg
      rw [Nat.mod_eq_of_lt hv, Nat.mod_eq_of_lt (by omega)]
    rw [hneg] at h
    have hu1 : 1 ≤ 2 ^ W - v := by omega
    have huB : 2 ^ W - v ≤ 2 ^ (W - 1) := by omega
    by_cases hp3 : isPow2 (apAdd1 W (2 ^ W - v)) = true
    · -- CVNegPlus1.isPowerOf2(): sub with swapped operands
      rw [if_pos hp3] at h
      simp at h
      subst h
      by_cases hcase : 2 ^ W - v + 1 = 2 ^ W
      · have hzero : apAdd1 W (2 ^ W - v) = 0 := by
          unfold apAdd1
          rw [hcase, Nat.mod_self]
        rw [hzero] at hp3
        have := (isPow2_spec hp3).1
        omega
      · have hlt : 2 ^ W - v + 1 < 2 ^ W := by omega
        rw [apAdd1_of_lt hlt] at hp3 ⊢
        obtain ⟨_, hlog3⟩ := isPow2_spec hp3
        have hs1 : 1 ≤ natLog2 (2 ^ W - v + 1) := by
          by_contra hc
          have : natLog2 (2 ^ W - v + 1) = 0 := by omega
          rw [this] at hlog3
          omega
        have h2s : 2 ^ natLog2 (2 ^ W - v + 1) = 2 * 2 ^ (natLog2 (2 ^ W - v + 1) - 1) := by
          conv_lhs => rw [show natLog2 (2 ^ W - v + 1) = natLog2 (2 ^ W - v + 1) - 1 + 1 by omega,
            pow_succ']
        have hodd : v % 2 = 1 := by omega
        have ht0 : countrZero W v = 0 := countrZero_odd W v hW hodd
        simp only [evalApplyFn, ht0, ne_eq, not_true_eq_false, if_false, ite_true, ite_false,
          Bool.false_eq_true]
        set s := natLog2 (2 ^ W - v + 1) with hsdef
        rw [show v = 2 ^ W - 2 ^ s + 1 by omega]
        apply natEq_of_zmodCast hM (Nat.mod_lt _ hM) (Nat.mod_lt _ hM)
        push_cast [ZMod.natCast_mod,
          Nat.cast_sub (le_of_lt (Nat.mod_lt (x * 2 ^ s % 2 ^ W) hM)),
          Nat.cast_sub (show 2 ^ s ≤ 2 ^ W by omega)]
        rw [hM0]
        ring
    · rw [if_neg hp3] at h
      by_cases hp4 : isPow2 (apSub1 W (2 ^ W - v)) = true
      · -- CVNegMinus1.isPowerOf2(): add + negate
        rw [if_pos hp4] at h
        simp at h
        obtain ⟨htz, h⟩ := h
        subst h
        have hult : 2 ^ W - v < 2 ^ W := by omega
        rw [apSub1_of_pos hu1 hult] at hp4 ⊢
        obtain ⟨hpos4, hlog4⟩ := isPow2_spec hp4
        simp only [evalApplyFn, htz, ite_true, ite_false]
        set s := natLog2 (2 ^ W - v - 1) with hsdef
        rw [show v = 2 ^ W - (2 ^ s + 1) by omega]
        apply natEq_of_zmodCast hM (Nat.mod_lt _ hM) (Nat.mod_lt _ hM)
        push_cast [ZMod.natCast_mod,
          Nat.cast_sub (le_of_lt (Nat.mod_lt ((x * 2 ^ s % 2 ^ W + x) % 2 ^ W) hM)),
          Nat.cast_sub (show 2 ^ s + 1 ≤ 2 ^ W by omega)]
        rw [hM0]
        ring
      · rw [if_neg hp4] at h
        simp at h

theorem matchAArch64MulConstCombine_eval (W v x : Nat) (hW : 0 < W) (hv : v < 2 ^ W)
    (hx : x < 2 ^ W) (f1 : Bool) (o1 : Opcode) (f2 : Bool) (o2 : Opcode) (p : MulPlan)
    (h : matchAArch64MulConstCombine W v f1 o1 f2 o2 = some p) :
    evalApplyFn W p x = x * v % 2 ^ W := by
  apply matchMulBranches_eval W v x hW hv hx p
  simp only [matchAArch64MulConstCombine] at h
  split at h
  · exact absurd h (by simp)
  · exact h

/-- C5: whenever the multiply rule's match succeeds, the captured plan
never has both the final negation and a nonzero trailing-zero count, so
the assertion inside the apply closure cannot fail. -/
theorem mulConst_negate_trailing_exclusive (W v : Nat) (f1 : Bool) (o1 : Opcode)
    (f2 : Bool) (o2 : Opcode) (p : MulPlan)
    (h : matchAArch64MulConstCombine W v f1 o1 f2 o2 = some p) :
    ¬(p.negateResult = true ∧ p.trailingZeroes ≠ 0) := by
  simp only [matchAArch64MulConstCombine] at h
  split at h
  · exact absurd h (by simp)
  · simp only [matchMulBranches] at h
    split at h
    · exact absurd h (by simp)
    · split at h
      · exact absurd h (by simp)
      · rename_i q hq hcond
        obtain rfl : q = p := Option.some.inj h
        exact hcond

theorem mulConst_negate_trailing_exclusive_witness :
    ¬((MulPlan.mk 1 .G_ADD true false 0).negateResult = true ∧
      (MulPlan.mk 1 .G_ADD true false 0).trailingZeroes ≠ 0) :=
  mulConst_negate_trailing_exclusive 64 3 false .G_MUL false .G_MUL
    (MulPlan.mk 1 .G_ADD true false 0) (by decide)

/-- C2: the concrete decompositions of the multiply rule: C=3 gives
shift-left 1 then add; C=7 gives shift-left 3 then subtract; C=6 gives
shift-left 1, add, trailing shift 1; C=-3 (as a 64-bit value) gives the
subtract arrangement with the shifted value on the right-hand side
(`ShiftValUseIsLHS = false`); C=11 does not fire. -/
theorem mulConst_concrete_cases :
    matchAArch64MulConstCombine 64 3 false .G_MUL false .G_MUL
      = some (MulPlan.mk 1 .G_ADD true false 0) ∧
    matchAArch64MulConstCombine 64 7 false .G_MUL false .G_MUL
      = some (MulPlan.mk 3 .G_SUB true false 0) ∧
    matchAArch64MulConstCombine 64 6 false .G_MUL false .G_MUL
      = some (MulPlan.mk 1 .G_ADD true false 1) ∧
    matchAArch64MulConstCombine 64 (2 ^ 64 - 3) false .G_MUL false .G_MUL
      = some (MulPlan.mk 2 .G_SUB false false 0) ∧
    matchAArch64MulConstCombine 64 11 false .G_MUL false .G_MUL = none := by
  decide

/-- C3 counterexample: C = 14 (width 32) is non-negative with one
trailing zero bit and shifted value C' = 7; C' - 1 = 6 is not a power of
two while C' + 1 = 8 is, so the claim says the rule fires with the
subtract arrangement - but the source tests `ConstValue + 1 = 15`, not
`C' + 1`, and the match returns no-match. -/
theorem mulConst_c14_counterexample :
    0 < (14 : Nat) ∧ (14 : Nat) < 2 ^ (32 - 1) ∧ countrZero 32 14 = 1 ∧
    isPow2 (14 / 2 ^ countrZero 32 14 - 1) = false ∧
    isPow2 (14 / 2 ^ countrZero 32 14 + 1) = true ∧
    matchAArch64MulConstCombine 32 14 false .G_MUL false .G_MUL = none := by
  decide

/-- C3 (amended): for a positive constant `v < 2^(W-1)` with `t` trailing
zeros and `C' = v >> t`, if `C' - 1` is a power of two the rule fires
with shift `log2 (C'-1)` and add (followed by the trailing shift `t`);
otherwise, if `C + 1` - the unshifted constant plus one, not `C' + 1` -
is a power of two, the rule fires with shift `log2 (C+1)` and subtract,
and in that case `t` is necessarily zero (so no trailing shift occurs). -/
theorem mulConst_nonneg_decomposition (W v : Nat) (hW : 0 < W) (hv0 : 0 < v)
    (hv : v < 2 ^ (W - 1)) :
    (isPow2 (v / 2 ^ countrZero W v - 1) = true →
      matchAArch64MulConstCombine W v false .G_MUL false .G_MUL
        = some (MulPlan.mk (natLog2 (v / 2 ^ countrZero W v - 1)) .G_ADD true false
            (countrZero W v))) ∧
    (isPow2 (v / 2 ^ countrZero W v - 1) = false → isPow2 (v + 1) = true →
      matchAArch64MulConstCombine W v false .G_MUL false .G_MUL
        = some (MulPlan.mk (natLog2 (v + 1)) .G_SUB true false 0) ∧
      countrZero W v = 0) := by
  have hMsplit : 2 ^ W = 2 * 2 ^ (W - 1) := by
    conv_lhs => rw [show W = W - 1 + 1 by omega, pow_succ']
  have hM1 : 1 ≤ 2 ^ (W - 1) := Nat.one_le_pow _ 2 (by norm_num)
  have hvW : v < 2 ^ W := by omega
  have htdvd : 2 ^ countrZero W v ∣ v := ctzAux_dvd W v
  have hc1 : 1 ≤ v / 2 ^ countrZero W v :=
    (Nat.one_le_div_iff (Nat.pos_pow_of_pos _ (by norm_num))).mpr
      (Nat.le_of_dvd (by omega) htdvd)
  have hclt : v / 2 ^ countrZero W v < 2 ^ W :=
    lt_of_le_of_lt (Nat.div_le_self v _) hvW
  have hashr : apAshr W v (countrZero W v) = v / 2 ^ countrZero W v := by
    unfold apAshr
    rw [if_pos hv]
  constructor
  · intro hp1
    simp only [matchAArch64MulConstCombine, matchMulBranches]
    rw [if_neg (by simp), if_pos hv, hashr, apSub1_of_pos hc1 hclt, if_pos hp1]
    simp
  · intro hp1 hp2
    have hs1 : 1 ≤ natLog2 (v + 1) := by
      obtain ⟨_, hlog⟩ := isPow2_spec hp2
      by_contra hc
      have hz : natLog2 (v + 1) = 0 := by omega
      rw [hz] at hlog
      omega
    have h2s : 2 ^ natLog2 (v + 1) = 2 * 2 ^ (natLog2 (v + 1) - 1) := by
      conv_lhs => rw [show natLog2 (v + 1) = natLog2 (v + 1) - 1 + 1 by omega, pow_succ']
    have hodd : v % 2 = 1 := by
      obtain ⟨_, hlog⟩ := isPow2_spec hp2
      omega
    have ht0 : countrZero W v = 0 := countrZero_odd W v hW hodd
    have hvlt : v + 1 < 2 ^ W := by omega
    refine ⟨?_, ht0⟩
    simp only [matchAArch64MulConstCombine, matchMulBranches]
    rw [if_neg (by simp), if_pos hv, hashr, apSub1_of_pos hc1 hclt, if_neg (by simp [hp1]),
      apAdd1_of_lt hvlt, if_pos hp2, ht0]
    simp

theorem mulConst_nonneg_decomposition_witness :
    matchAArch64MulConstCombine 32 7 false .G_MUL false .G_MUL
      = some (MulPlan.mk (natLog2 (7 + 1)) .G_SUB true false 0) ∧
    countrZero 32 7 = 0 :=
  (mulConst_nonneg_decomposition 32 7 (by decide) (by decide) (by decide)).2
    (by decide) (by decide)

/-- C4 counterexample: for C = 3 the trailing-zero count is zero, and the
match fires even though the multiply's result has exactly one use which
is a `G_ADD` - the result-use bail-out is not unconditional as the claim
states; it is only checked when the trailing-zero count is positive. -/
theorem mulConst_use_bailout_counterexample :
    matchAArch64MulConstCombine 64 3 false .G_MUL true .G_ADD
      = some (MulPlan.mk 1 .G_ADD true false 0) := by
  decide

/-- C4 (amended): when the constant has a positive trailing-zero count,
the rule does not fire if the non-constant operand has exactly one
non-debug use and is sign- or zero-extended, nor if the multiply's
result has exactly one non-debug use that is an add, pointer-add or
subtract; when the trailing-zero count is zero, the use facts are
ignored entirely. -/
theorem mulConst_use_bailouts (W v : Nat) (f1 : Bool) (o1 : Opcode) (f2 : Bool)
    (o2 : Opcode) :
    (countrZero W v ≠ 0 → f1 = true →
      (isSignExtended o1 = true ∨ isZeroExtended o1 = true) →
      matchAArch64MulConstCombine W v f1 o1 f2 o2 = none) ∧
    (countrZero W v ≠ 0 → f2 = true →
      (o2 = .G_ADD ∨ o2 = .G_PTR_ADD ∨ o2 = .G_SUB) →
      matchAArch64MulConstCombine W v f1 o1 f2 o2 = none) ∧
    (countrZero W v = 0 →
      matchAArch64MulConstCombine W v f1 o1 f2 o2
        = matchAArch64MulConstCombine W v false .G_MUL false .G_MUL) := by
  refine ⟨?_, ?_, ?_⟩
  · intro ht hf ho
    simp only [matchAArch64MulConstCombine]
    rw [if_pos ⟨ht, Or.inl ⟨hf, ho⟩⟩]
  · intro ht hf ho
    simp only [matchAArch64MulConstCombine]
    rw [if_pos ⟨ht, Or.inr ⟨hf, ho⟩⟩]
  · intro ht
    simp only [matchAArch64MulConstCombine]
    rw [if_neg (by simp [ht]), if_neg (by simp [ht])]

theorem mulConst_use_bailouts_witness :
    matchAArch64MulConstCombine 64 6 true .G_SEXT false .G_MUL = none ∧
    matchAArch64MulConstCombine 64 6 false .G_MUL true .G_ADD = none ∧
    matchAArch64MulConstCombine 64 3 true .G_SEXT true .G_ADD
      = matchAArch64MulConstCombine 64 3 false .G_MUL false .G_MUL :=
  ⟨(mulConst_use_bailouts 64 6 true .G_SEXT false .G_MUL).1 (by decide) rfl
      (Or.inl (by decide)),
   (mulConst_use_bailouts 64 6 false .G_MUL true .G_ADD).2.1 (by decide) rfl
      (Or.inl rfl),
   (mulConst_use_bailouts 64 3 true .G_SEXT true .G_ADD).2.2 (by decide)⟩

/-- C1: semantic equivalence of the five rewrite rules, for every runtime
value of the input registers. (1) Multiply rule: whenever the match
succeeds, the emitted shift / add-or-sub / optional trailing-shift-or-
negate sequence equals `x * C` modulo `2^W` for every `W`-bit `x`
(including 0, all-ones and the extreme signed values, all of which are
just `W`-bit values). (2) Pairwise-extraction rule: extracting lane 0 of
an elementwise float-add of `v` with a shuffle of `v` whose first mask
slot is 1 equals the scalar add of lanes 0 and 1 of `v`, for either
operand order (float addition is commutative, which the abstract
operation assumes as a hypothesis). (3) Merge-to-zext rule: merging a
32-bit value with a zero high half equals its zero-extension.
(4) Anyext-to-zext rule: the zero-extended value is a legitimate result
of the original `G_ANYEXT`, whose upper bits are unspecified.
(5) Store-splitting rule: storing 16 zero bytes at `A` has the same
memory effect as storing 8 zero bytes at `A` and 8 zero bytes at `A+8`. -/
theorem rules_semantic_equivalence :
    (∀ (W v x : Nat) (f1 : Bool) (o1 : Opcode) (f2 : Bool) (o2 : Opcode) (p : MulPlan),
      0 < W → v < 2 ^ W → x < 2 ^ W →
      matchAArch64MulConstCombine W v f1 o1 f2 o2 = some p →
      evalApplyFn W p x = x * v % 2 ^ W) ∧
    (∀ (α : Type) (f : α → α → α) (v undef : Nat → α) (mask : List Int),
      (∀ a b, f a b = f b a) → mask.getD 0 (-1) = 1 →
      extractElt (vecBinop f v (shuffleVec v undef mask)) 0
          = f (extractElt v 0) (extractElt v 1) ∧
      extractElt (vecBinop f (shuffleVec v undef mask) v) 0
          = f (extractElt v 0) (extractElt v 1)) ∧
    (∀ a : Nat, mergeValues2 a 0 = zextVal 32 a) ∧
    (∀ srcW dstW c : Nat, srcW ≤ dstW → anyextResult srcW dstW c (zextVal srcW c)) ∧
    (∀ (m : Nat → Nat) (A : Nat),
      storeVal m A 16 0 = storeVal (storeVal m A 8 0) (A + 8) 8 0) := by
  refine ⟨?_, ?_, ?_, ?_, ?_⟩
  · intro W v x f1 o1 f2 o2 p hW hv hx h
    exact matchAArch64MulConstCombine_eval W v x hW hv hx f1 o1 f2 o2 p h
  · intro α f v undef mask hcomm hmask
    have hs0 : shuffleVec v undef mask 0 = v 1 := by
      simp only [shuffleVec, hmask]
    constructor
    · simp only [extractElt, vecBinop, hs0]
    · simp only [extractElt, vecBinop, hs0]
      exact hcomm (v 1) (v 0)
  · intro a
    simp [mergeValues2, zextVal]
  · intro srcW dstW c hsd
    have hpos : 0 < 2 ^ srcW := Nat.pos_pow_of_pos _ (by norm_num)
    refine ⟨lt_of_lt_of_le (Nat.mod_lt c hpos) (Nat.pow_le_pow_right (by norm_num) hsd), ?_⟩
    exact Nat.mod_mod_of_dvd c dvd_rfl
  · intro m A
    funext a
    simp only [storeVal, Nat.zero_div, Nat.zero_mod]
    split_ifs <;> first | rfl | omega

theorem rules_semantic_equivalence_witness :
    evalApplyFn 32 (MulPlan.mk 1 .G_ADD true false 0) 5 = 5 * 3 % 2 ^ 32 ∧
    extractElt
      (vecBinop Nat.add (fun i => i + 10)
        (shuffleVec (fun i => i + 10) (fun _ => 0) [1, 0])) 0
      = Nat.add 10 11 ∧
    mergeValues2 7 0 = zextVal 32 7 ∧
    anyextResult 32 64 1 (zextVal 32 1) ∧
    storeVal (fun _ => 9) 100 16 0
      = storeVal (storeVal (fun _ => 9) 100 8 0) (100 + 8) 8 0 :=
  ⟨rules_semantic_equivalence.1 32 3 5 false .G_MUL false .G_MUL
      (MulPlan.mk 1 .G_ADD true false 0) (by decide) (by decide) (by decide) (by decide),
   (rules_semantic_equivalence.2.1 Nat Nat.add (fun i => i + 10) (fun _ => 0) [1, 0]
      Nat.add_comm (by decide)).1,
   rules_semantic_equivalence.2.2.1 7,
   rules_semantic_equivalence.2.2.2.1 32 64 1 (by decide),
   rules_semantic_equivalence.2.2.2.2 (fun _ => 9) 100⟩

/-- C6: the 128-bit zero-store rule matches exactly when the store is
simple, the value type is a 128-bit vector, the memory size equals the
value width, the value has exactly one non-debug use, and the value is a
constant or splat equal to zero; apply emits two 64-bit zero stores at
the original address and 8 bytes above it, each with a memory operand
derived from the original restricted to its 8-byte half, and erases the
original store; a non-zero constant store and a multi-use value store do
not fire. -/
theorem splitStoreZero128_spec (store : GStoreInfo) (mri : MRIModel) :
    (matchSplitStoreZero128 store mri = true ↔
      (store.isSimple = true ∧ (mri.types store.valueReg).isVector = true ∧
       (mri.types store.valueReg).sizeInBits = 128 ∧
       store.memSizeInBits = 128 ∧
       mri.hasOneNonDBGUse store.valueReg = true ∧
       isConstantOrConstantSplatVector (mri.defs store.valueReg) mri = some 0)) ∧
    applySplitStoreZero128 store
      = ([EmittedStore.mk 0 64 store.ptrReg 0 store.mmoOffset 64,
          EmittedStore.mk 0 64 store.ptrReg 8 (store.mmoOffset + 8) 64], true) ∧
    (∀ c : Int, isConstantOrConstantSplatVector (mri.defs store.valueReg) mri = some c →
      c ≠ 0 → matchSplitStoreZero128 store mri = false) ∧
    (mri.hasOneNonDBGUse store.valueReg = false →
      matchSplitStoreZero128 store mri = false) := by
  have hiff : matchSplitStoreZero128 store mri = true ↔
      (store.isSimple = true ∧ (mri.types store.valueReg).isVector = true ∧
       (mri.types store.valueReg).sizeInBits = 128 ∧
       store.memSizeInBits = 128 ∧
       mri.hasOneNonDBGUse store.valueReg = true ∧
       isConstantOrConstantSplatVector (mri.defs store.valueReg) mri = some 0) := by
    constructor
    · intro hm
      simp only [matchSplitStoreZero128] at hm
      split at hm
      · exact absurd hm (by simp)
      · rename_i h1
        split at hm
        · exact absurd hm (by simp)
        · rename_i h2
          split at hm
          · exact absurd hm (by simp)
          · rename_i h3
            split at hm
            · exact absurd hm (by simp)
            · rename_i h4
              split at hm
              · rename_i c hc
                have hc0 : c = 0 := of_decide_eq_true hm
                subst hc0
                obtain ⟨hv, hs⟩ := not_or.mp h2
                refine ⟨by simpa using h1, by simpa using hv, not_not.mp hs, ?_,
                  by simpa using h4, hc⟩
                have := not_not.mp h3
                omega
              · exact absurd hm (by simp)
    · rintro ⟨h1, h2, h3, h4, h5, h6⟩
      simp [matchSplitStoreZero128, h1, h2, h3, h4, h5, h6]
  refine ⟨hiff, by simp [applySplitStoreZero128], ?_, ?_⟩
  · intro c hc hne
    cases hm : matchSplitStoreZero128 store mri
    · rfl
    · obtain ⟨-, -, -, -, -, h6⟩ := hiff.mp hm
      rw [hc] at h6
      exact absurd (Option.some.inj h6) hne
  · intro h5
    cases hm : matchSplitStoreZero128 store mri
    · rfl
    · obtain ⟨-, -, -, -, h5t, -⟩ := hiff.mp hm
      rw [h5] at h5t
      exact absurd h5t (by simp)

theorem splitStoreZero128_spec_witness :
    matchSplitStoreZero128 exStore exStoreMRI = true ∧
    matchSplitStoreZero128 exStore exStoreMRINZ = false ∧
    matchSplitStoreZero128 exStore exStoreMRIMulti = false ∧
    applySplitStoreZero128 exStore
      = ([EmittedStore.mk 0 64 exStore.ptrReg 0 exStore.mmoOffset 64,
          EmittedStore.mk 0 64 exStore.ptrReg 8 (exStore.mmoOffset + 8) 64], true) :=
  ⟨(splitStoreZero128_spec exStore exStoreMRI).1.mpr
      ⟨rfl, rfl, rfl, rfl, rfl, by decide⟩,
   (splitStoreZero128_spec exStore exStoreMRINZ).2.2.1 5 (by decide) (by decide),
   (splitStoreZero128_spec exStore exStoreMRIMulti).2.2.2 (by decide),
   (splitStoreZero128_spec exStore exStoreMRI).2.1⟩

/-- C7: the merge-to-zero-extend rule matches exactly when there are two
sources, the source type is `s32`, and the second source is the constant
zero (two non-constant sources never fire); apply mutates the
instruction in place to a `G_ZEXT`, dropping operand 2 and leaving the
destination operand and the first source operand (and everything else)
unchanged - not a replace-and-erase. -/
theorem foldMergeToZext_spec :
    (∀ (mi : GMI) (mri : MRIModel),
      matchFoldMergeToZext mi mri = true ↔
        (mri.types (mi.operands.getD 1 0) = LLTy.scalar 32 ∧
         mi.operands.length - 1 = 2 ∧
         getIConstantVRegValWithLookThrough (mi.operands.getD 2 0) mri = some 0)) ∧
    (∀ (mi : GMI) (mri : MRIModel),
      getIConstantVRegValWithLookThrough (mi.operands.getD 2 0) mri = none →
      matchFoldMergeToZext mi mri = false) ∧
    (∀ mi : GMI, applyFoldMergeToZext mi
        = { mi with opcode := .G_ZEXT, operands := mi.operands.eraseIdx 2 }) ∧
    (∀ (ident : Nat) (d a b : Reg) (msk : List Int) (cv : Option Int),
      applyFoldMergeToZext (GMI.mk ident .G_MERGE_VALUES [d, a, b] msk cv)
        = GMI.mk ident .G_ZEXT [d, a] msk cv) := by
  refine ⟨?_, ?_, fun _ => rfl, fun _ _ _ _ _ _ => rfl⟩
  · intro mi mri
    constructor
    · intro hm
      simp only [matchFoldMergeToZext] at hm
      split at hm
      · exact absurd hm (by simp)
      · rename_i hcond
        obtain ⟨hty, hlen⟩ := not_or.mp hcond
        exact ⟨not_not.mp hty, not_not.mp hlen, of_decide_eq_true hm⟩
    · rintro ⟨h1, h2, h3⟩
      simp only [matchFoldMergeToZext]
      rw [if_neg (by push_neg; exact ⟨h1, h2⟩), h3]
      decide
  · intro mi mri h
    simp only [matchFoldMergeToZext]
    by_cases hc : mri.types (mi.operands.getD 1 0) ≠ LLTy.scalar 32 ∨
        mi.operands.length - 1 ≠ 2
    · rw [if_pos hc]
    · rw [if_neg hc, h]
      decide

theorem foldMergeToZext_spec_witness :
    matchFoldMergeToZext (exMergeDefs 10) exMergeMRI = true ∧
    matchFoldMergeToZext (exMergeDefs 11) exMergeMRI = false ∧
    applyFoldMergeToZext (GMI.mk 20 .G_MERGE_VALUES [10, 11, 12] [] none)
      = GMI.mk 20 .G_ZEXT [10, 11] [] none :=
  ⟨(foldMergeToZext_spec.1 (exMergeDefs 10) exMergeMRI).mpr
      ⟨by decide, by decide, by decide⟩,
   foldMergeToZext_spec.2.1 (exMergeDefs 11) exMergeMRI (by decide),
   foldMergeToZext_spec.2.2.2 20 10 11 12 [] none⟩

/-- C8 counterexample: a concrete extraction instruction whose index
operand is the constant zero, whose source is a float-add of a vector
with a shuffle of that same vector whose first mask slot selects index 1
- i.e. every condition stated in the claim holds - but whose 8-bit
scalar destination makes the matcher return no-match. -/
theorem extractPairwise_s8_counterexample :
    getIConstantVRegValWithLookThrough ((exDefs 0).operands.getD 2 0) exMRI8 = some 0 ∧
    (getOpcodeDef .G_FADD ((exDefs 0).operands.getD 1 0) exMRI8).isSome = true ∧
    (exDefs 4).shuffleMask.getD 0 0 = 1 ∧
    (exMRI8.defs ((exDefs 1).operands.getD 1 0)).ident
      = (exMRI8.defs ((exDefs 4).operands.getD 1 0)).ident ∧
    matchExtractVecEltPairwiseAdd (exDefs 0) exMRI8 = none := by
  decide

/-- C8 (amended): for every extraction whose index operand is the
constant zero, whose source is a float-add one of whose operands is a
shuffle (of the same vector as the other operand) with first mask slot
1, and - additionally to the claim - whose scalar destination width is
16, 32 or 64 bits, the matcher records `(G_FADD, destination type,
shared vector)`, and the apply phase emits two single-element
extractions of the shared vector at constant indices 0 and 1 combined
with a scalar `G_FADD` into the original destination register, erasing
the original instruction. -/
theorem extractPairwise_match_apply (mri : MRIModel) (mi faddMI sh : GMI)
    (hc : getIConstantVRegValWithLookThrough (mi.operands.getD 2 0) mri = some 0)
    (hf : getOpcodeDef .G_FADD (mi.operands.getD 1 0) mri = some faddMI)
    (hsz : (mri.types (mi.operands.getD 0 0)).sizeInBits = 16 ∨
           (mri.types (mi.operands.getD 0 0)).sizeInBits = 32 ∨
           (mri.types (mi.operands.getD 0 0)).sizeInBits = 64)
    (hsh : getOpcodeDef .G_SHUFFLE_VECTOR (faddMI.operands.getD 2 0) mri = some sh)
    (hmask : sh.shuffleMask.getD 0 0 = 1)
    (hother : (mri.defs (faddMI.operands.getD 1 0)).ident
        = (mri.defs (sh.operands.getD 1 0)).ident) :
    matchExtractVecEltPairwiseAdd mi mri
      = some (.G_FADD, mri.types (mi.operands.getD 0 0),
              (mri.defs (faddMI.operands.getD 1 0)).operands.getD 0 0) ∧
    ∀ freshBase,
      applyExtractVecEltPairwiseAdd mi
        (.G_FADD, mri.types (mi.operands.getD 0 0),
         (mri.defs (faddMI.operands.getD 1 0)).operands.getD 0 0) freshBase
      = ([GMI.mk freshBase .G_CONSTANT [freshBase] [] (some 0),
          GMI.mk (freshBase + 1) .G_EXTRACT_VECTOR_ELT
            [freshBase + 1, (mri.defs (faddMI.operands.getD 1 0)).operands.getD 0 0,
             freshBase] [] none,
          GMI.mk (freshBase + 2) .G_CONSTANT [freshBase + 2] [] (some 1),
          GMI.mk (freshBase + 3) .G_EXTRACT_VECTOR_ELT
            [freshBase + 3, (mri.defs (faddMI.operands.getD 1 0)).operands.getD 0 0,
             freshBase + 2] [] none,
          GMI.mk (freshBase + 4) .G_FADD
            [mi.operands.getD 0 0, freshBase + 1, freshBase + 3] [] none], true) := by
  constructor
  · simp only [matchExtractVecEltPairwiseAdd, hc, hf, hsh]
    rw [if_neg (by simp), if_neg (by push_neg; omega)]
    rw [if_pos ⟨hmask, hother⟩]
  · intro freshBase
    rfl

theorem extractPairwise_match_apply_witness :
    matchExtractVecEltPairwiseAdd (exDefs 0) exMRI32
      = some (.G_FADD, exMRI32.types ((exDefs 0).operands.getD 0 0),
              (exMRI32.defs ((exDefs 1).operands.getD 1 0)).operands.getD 0 0) ∧
    ∀ freshBase,
      applyExtractVecEltPairwiseAdd (exDefs 0)
        (.G_FADD, exMRI32.types ((exDefs 0).operands.getD 0 0),
         (exMRI32.defs ((exDefs 1).operands.getD 1 0)).operands.getD 0 0) freshBase
      = ([GMI.mk freshBase .G_CONSTANT [freshBase] [] (some 0),
          GMI.mk (freshBase + 1) .G_EXTRACT_VECTOR_ELT
            [freshBase + 1,
             (exMRI32.defs ((exDefs 1).operands.getD 1 0)).operands.getD 0 0,
             freshBase] [] none,
          GMI.mk (freshBase + 2) .G_CONSTANT [freshBase + 2] [] (some 1),
          GMI.mk (freshBase + 3) .G_EXTRACT_VECTOR_ELT
            [freshBase + 3,
             (exMRI32.defs ((exDefs 1).operands.getD 1 0)).operands.getD 0 0,
             freshBase + 2] [] none,
          GMI.mk (freshBase + 4) .G_FADD
            [(exDefs 0).operands.getD 0 0, freshBase + 1, freshBase + 3] [] none],
         true) :=
  extractPairwise_match_apply exMRI32 (exDefs 0) (exDefs 1) (exDefs 4)
    (by decide) (by decide) (by decide) (by decide) (by decide) (by decide)

/-- C10: the pairwise-extraction matcher requires the scalar destination
width to be exactly 16, 32 or 64 bits: for any other destination width
it returns no-match, whatever the rest of the graph looks like. -/
theorem extractPairwise_requires_width (mi : GMI) (mri : MRIModel)
    (h16 : (mri.types (mi.operands.getD 0 0)).sizeInBits ≠ 16)
    (h32 : (mri.types (mi.operands.getD 0 0)).sizeInBits ≠ 32)
    (h64 : (mri.types (mi.operands.getD 0 0)).sizeInBits ≠ 64) :
    matchExtractVecEltPairwiseAdd mi mri = none := by
  simp only [matchExtractVecEltPairwiseAdd]
  split
  · rfl
  · split
    · rfl
    · split
      · rfl
      · rw [if_pos ⟨h16, h32, h64⟩]

theorem extractPairwise_requires_width_witness :
    matchExtractVecEltPairwiseAdd (exDefs 0) exMRI8 = none :=
  extractPairwise_requires_width (exDefs 0) exMRI8 (by decide) (by decide) (by decide)

/-- C9: if the rule-enable/disable configuration names a rule that is not
registered, the pass raises the fatal "Invalid rule identifier" error
during setup, before any instruction of the function is processed. -/
theorem configError_aborts (registered config : List String) (instrs : List GMI)
    (h : ∃ n, n ∈ config ∧ registered.contains n = false) :
    runCombinerPass registered config instrs
      = Except.error invalidRuleError := by
  obtain ⟨n, hmem, hnc⟩ := h
  have hp : parseCommandLineOption registered config = false := by
    unfold parseCommandLineOption
    cases hall : config.all fun n => registered.contains n
    · rfl
    · have := List.all_eq_true.mp hall n hmem
      rw [hnc] at this
      exact absurd this (by simp)
  unfold runCombinerPass initCombinerInfo
  rw [hp]
  simp

theorem configError_aborts_witness :
    runCombinerPass ["extract_vec_elt_combines"] ["no_such_rule"] []
      = Except.error invalidRuleError :=
  configError_aborts ["extract_vec_elt_combines"] ["no_such_rule"] []
    ⟨"no_such_rule", by decide, by decide⟩
